import Mathlib

/-!
Verification of the citation-graph corpus service (`backend/process_data.py`,
`backend/get_tag.py`) against its specification.

The Python source is shallowly embedded: Python `str` becomes `String`
(operated on as `List Char`), Python `dict` becomes an insertion-ordered
association list, Python `set` becomes a duplicate-free list (iteration order
of a Python set is unspecified; the embedding fixes one order and all proved
properties are order-independent), JSON files on disk become functions
`String → Option _` (`none` = file missing or malformed, both of which the
loader skips identically), and code paths that raise exceptions return
`Except`.  Python's stable `list.sort(key=..., reverse=True)` is embedded as
`List.insertionSort` with the corresponding total preorder: any two stable
sorts with the same comparator compute the same function.  Regular-expression
substitutions in `normalize_venue` are embedded by a small scanner that
performs leftmost, non-overlapping global substitution exactly as `re.sub`
does for these particular patterns (each pattern's greedy/backtracking
behaviour is resolved statically in the matcher; `\s` and `\d` are modelled
on their ASCII ranges, which covers every string considered here).
-/

/-- Python `\s` (ASCII range): space, tab, newline, carriage return,
vertical tab, form feed. -/
def isPySpace (c : Char) : Bool :=
  c = ' ' || c = '\t' || c = '\n' || c = '\r' || c = Char.ofNat 11 || c = Char.ofNat 12

/-- Python `\d` (ASCII range). -/
def isPyDigit (c : Char) : Bool :=
  '0' ≤ c && c ≤ '9'

/-- The apostrophe character (written via its code point). -/
def apos : Char := Char.ofNat 39

/-- Python `str.strip()` on a character list. -/
def pyStrip (l : List Char) : List Char :=
  ((l.dropWhile isPySpace).reverse.dropWhile isPySpace).reverse

/-- Python `str.strip()`. -/
def pyStripStr (s : String) : String :=
  String.mk (pyStrip s.data)

/-- Python `str.lower()` (character-wise). -/
def lowerStr (s : String) : String :=
  String.mk (s.data.map Char.toLower)

/-- A matcher: given the input suffix, return the number of characters the
pattern consumes when it matches at the start, together with the rest. -/
def PM : Type := List Char → Option (Nat × List Char)

/-- Sequential composition of matchers. -/
def pmSeq (a b : PM) : PM := fun s =>
  match a s with
  | some (n, r) =>
    match b r with
    | some (m, r2) => some (n + m, r2)
    | none => none
  | none => none

/-- Ordered alternation (the left branch is preferred, as for a greedy
optional group in `re`). -/
def pmAlt (a b : PM) : PM := fun s =>
  match a s with
  | some x => some x
  | none => b s

/-- Matches `$` (end of input). -/
def pmEnd : PM := fun s =>
  match s with
  | [] => some (0, [])
  | _ => none

/-- Matches one character satisfying `f`. -/
def pmChar (f : Char → Bool) : PM := fun s =>
  match s with
  | c :: cs => if f c then some (1, cs) else none
  | [] => none

/-- Matches one literal character. -/
def pmLit (c : Char) : PM := pmChar (fun x => x = c)

/-- Matches `\s+` (greedy; the following pattern element never matches a
space, so maximal munch is exact). -/
def pmSpaces1 : PM := fun s =>
  match s with
  | c :: cs =>
    if isPySpace c then some (1 + (cs.takeWhile isPySpace).length, cs.dropWhile isPySpace)
    else none
  | [] => none

/-- Matches `\d+` (greedy; always followed by a letter test here, so maximal
munch is exact). -/
def pmDigits1 : PM := fun s =>
  match s with
  | c :: cs =>
    if isPyDigit c then some (1 + (cs.takeWhile isPyDigit).length, cs.dropWhile isPyDigit)
    else none
  | [] => none

/-- Matches `(19|20)\d{2}`. -/
def pmYear : PM :=
  pmSeq (pmAlt (pmSeq (pmLit '1') (pmLit '9')) (pmSeq (pmLit '2') (pmLit '0')))
    (pmSeq (pmChar isPyDigit) (pmChar isPyDigit))

/-- Matches `-\d{2}` (the two-digit range suffix of a year). -/
def pmYearRange : PM :=
  pmSeq (pmLit '-') (pmSeq (pmChar isPyDigit) (pmChar isPyDigit))

/-- `\s+(19|20)\d{2}(-\d{2})?\s+` (year in the middle of the string). -/
def pmMidYear : PM :=
  pmSeq pmSpaces1 (pmSeq pmYear (pmAlt (pmSeq pmYearRange pmSpaces1) pmSpaces1))

/-- `\s+(19|20)\d{2}(-\d{2})?$` (year at the end). -/
def pmEndYear : PM :=
  pmSeq pmSpaces1 (pmSeq pmYear (pmAlt (pmSeq pmYearRange pmEnd) pmEnd))

/-- `^(19|20)\d{2}(-\d{2})?\s+` (year at the start; the `^` anchor is handled
by applying this matcher at position 0 only). -/
def pmBeginYear : PM :=
  pmSeq pmYear (pmAlt (pmSeq pmYearRange pmSpaces1) pmSpaces1)

/-- `st|nd|rd|th`, case-insensitively. -/
def pmOrdSuffix : PM := fun s =>
  match s with
  | c1 :: c2 :: cs =>
    let a := c1.toLower
    let b := c2.toLower
    if (a = 's' && b = 't') || (a = 'n' && b = 'd') || (a = 'r' && b = 'd') ||
        (a = 't' && b = 'h') then
      some (2, cs)
    else none
  | _ => none

/-- `\d+(st|nd|rd|th)`. -/
def pmOrdCore : PM := pmSeq pmDigits1 pmOrdSuffix

/-- `\s+\d+(st|nd|rd|th)\s+`. -/
def pmMidOrd : PM := pmSeq pmSpaces1 (pmSeq pmOrdCore pmSpaces1)

/-- `^\d+(st|nd|rd|th)\s+`. -/
def pmBeginOrd : PM := pmSeq pmOrdCore pmSpaces1

/-- `\s+\d+(st|nd|rd|th)$`. -/
def pmEndOrd : PM := pmSeq pmSpaces1 (pmSeq pmOrdCore pmEnd)

/-- `\s+'?\d{2}$` (abbreviated year at the end). -/
def pmEndShort : PM :=
  pmSeq pmSpaces1
    (pmAlt (pmSeq (pmLit apos) (pmSeq (pmChar isPyDigit) (pmSeq (pmChar isPyDigit) pmEnd)))
      (pmSeq (pmChar isPyDigit) (pmSeq (pmChar isPyDigit) pmEnd)))

/-- `\s+'?\d{2}\s+` (abbreviated year in the middle). -/
def pmMidShort : PM :=
  pmSeq pmSpaces1
    (pmAlt (pmSeq (pmLit apos) (pmSeq (pmChar isPyDigit) (pmSeq (pmChar isPyDigit) pmSpaces1)))
      (pmSeq (pmChar isPyDigit) (pmSeq (pmChar isPyDigit) pmSpaces1)))

/-- Does the list contain `(19|20)\d\d` as a contiguous substring?  (Used for
the bracketed-year patterns, whose `[^)]*` context reduces to exactly this
test on the bracket's content.) -/
def containsYear4 : List Char → Bool
  | c1 :: c2 :: c3 :: c4 :: rest =>
    (((c1 = '1' && c2 = '9') || (c1 = '2' && c2 = '0')) && isPyDigit c3 && isPyDigit c4) ||
      containsYear4 (c2 :: c3 :: c4 :: rest)
  | _ => false

/-- `\s*\([^)]*(19|20)\d{2}[^)]*\)` and its square-bracket twin: optional
leading whitespace, an open bracket, content up to the first close bracket
that contains a year, and the close bracket. -/
def pmGroup (openC closeC : Char) : PM := fun s =>
  let k := (s.takeWhile isPySpace).length
  match s.dropWhile isPySpace with
  | c :: r2 =>
    if c = openC then
      let content := r2.takeWhile (fun x => x ≠ closeC)
      match r2.dropWhile (fun x => x ≠ closeC) with
      | d :: r3 =>
        if d = closeC && containsYear4 content then
          some (k + 1 + content.length + 1, r3)
        else none
      | [] => none
    else none
  | [] => none

/-- Global leftmost non-overlapping substitution, exactly as `re.sub` scans:
try the matcher at each position from the left; on a match, emit the
replacement and resume after the matched text.  Fuel is the input length,
which suffices because every successful match consumes at least one
character. -/
def gsubAux (m : PM) (repl : List Char) : Nat → List Char → List Char
  | 0, s => s
  | _ + 1, [] => []
  | fuel + 1, c :: cs =>
    match m (c :: cs) with
    | some (_ + 1, r) => repl ++ gsubAux m repl fuel r
    | _ => c :: gsubAux m repl fuel cs

/-- Global substitution (see `gsubAux`). -/
def gsub (m : PM) (repl : List Char) (s : List Char) : List Char :=
  gsubAux m repl s.length s

/-- Substitution of a `^`-anchored pattern by the empty string: a single
attempt at position 0. -/
def subStart (m : PM) (s : List Char) : List Char :=
  match m s with
  | some (_, r) => r
  | none => s

/-- `normalize_venue` from `process_data.py`: strips years, abbreviated
years, ordinal numerals and bracketed year groups, collapses whitespace and
trims, applying the same substitutions in the same order as the source. -/
def normalize_venue (venue : String) : String :=
  if venue = "" then venue
  else
    let v := venue.data
    let v := gsub pmMidYear [' '] v
    let v := gsub pmEndYear [] v
    let v := subStart pmBeginYear v
    let v := gsub (pmGroup '(' ')') [] v
    let v := gsub (pmGroup '[' ']') [] v
    let v := gsub pmEndShort [] v
    let v := gsub pmMidShort [' '] v
    let v := gsub pmMidOrd [' '] v
    let v := subStart pmBeginOrd v
    let v := gsub pmEndOrd [] v
    let v := gsub pmSpaces1 [' '] v
    String.mk (pyStrip v)

example : normalize_venue "SIGMOD 2023" = "SIGMOD" := by decide
example : normalize_venue "SIGMOD" = "SIGMOD" := by decide
example : normalize_venue "ICML 2024" = "ICML" := by decide
example : normalize_venue "10th International Conference on Big Data 2024" =
    "International Conference on Big Data" := by decide
example : normalize_venue "A 1999 2000 B" = "A 2000 B" := by decide
example : normalize_venue "A 2000 B" = "A B" := by decide
example : normalize_venue "VLDB 1999 2000" = "VLDB" := by decide
example : normalize_venue "Proceedings of the 2024 6th International Conference on X" =
    "Proceedings of the International Conference on X" := by decide
example : normalize_venue "Conf (June 2023) Berlin" = "Conf Berlin" := by decide
example : normalize_venue "Conf [2023] X" = "Conf X" := by decide
example : normalize_venue "VLDB '23" = "VLDB" := by decide
example : normalize_venue "A '23 B" = "A B" := by decide
example : normalize_venue "X 1999-20" = "X" := by decide
example : normalize_venue "X 1999-20 Y" = "X Y" := by decide
example : normalize_venue "A 1st 2nd B" = "A 2nd B" := by decide
example : normalize_venue "  spaced  out  " = "spaced out" := by decide
example : normalize_venue "21st Conference" = "Conference" := by decide
example : normalize_venue "X 123" = "X 123" := by decide
example : normalize_venue "X 23" = "X" := by decide
example : normalize_venue "x 1234" = "x 1234" := by decide
example : normalize_venue "A 12 B" = "A B" := by decide
example : normalize_venue "a  1999  b" = "a b" := by decide

/-! ## String similarity (`Corpus._lcs_length`, `Corpus._lcss_length`) -/

/-- The case-insensitive character comparison `s1[i-1].lower() == s2[j-1].lower()`. -/
def charEqLower (a b : Char) : Bool :=
  a.toLower = b.toLower

/-- The LCS dynamic-programming table of `Corpus._lcs_length`, as a function
of the two prefix lengths, with explicit fuel (`fuel ≥ i + j` always holds on
the call paths, making the fuel clause unreachable; fuel only serves to keep
the recursion structural). `dp[0][j] = dp[i][0] = 0`, and
`dp[i][j] = dp[i-1][j-1] + 1` on a character match, else
`max dp[i-1][j] dp[i][j-1]`, exactly the loop body of the source. -/
def lcsDPF (s1 s2 : List Char) : Nat → Nat → Nat → Nat
  | 0, _, _ => 0
  | _ + 1, 0, _ => 0
  | _ + 1, _ + 1, 0 => 0
  | fuel + 1, i + 1, j + 1 =>
    if charEqLower (s1.getD i ' ') (s2.getD j ' ') then
      lcsDPF s1 s2 fuel i j + 1
    else
      max (lcsDPF s1 s2 fuel i (j + 1)) (lcsDPF s1 s2 fuel (i + 1) j)

/-- `dp[i][j]` of `Corpus._lcs_length`. -/
def lcsDP (s1 s2 : List Char) (i j : Nat) : Nat :=
  lcsDPF s1 s2 (i + j) i j

/-- `Corpus._lcs_length`: length of the longest common subsequence,
case-insensitively. -/
def lcs_length (s1 s2 : String) : Nat :=
  lcsDP s1.data s2.data s1.data.length s2.data.length

/-- The LCSS dynamic-programming cell of `Corpus._lcss_length`:
`dp[i][j] = dp[i-1][j-1] + 1` on a match, else `0`. -/
def lcssDP (s1 s2 : List Char) : Nat → Nat → Nat
  | 0, _ => 0
  | _ + 1, 0 => 0
  | i + 1, j + 1 =>
    if charEqLower (s1.getD i ' ') (s2.getD j ' ') then lcssDP s1 s2 i j + 1
    else 0

/-- `Corpus._lcss_length`: the running maximum `max_length` over all cells
`dp[i][j]` with `1 ≤ i ≤ m`, `1 ≤ j ≤ n`, exactly as the two nested loops
accumulate it. -/
def lcss_length (s1 s2 : String) : Nat :=
  (List.range s1.data.length).foldl
    (fun acc i =>
      (List.range s2.data.length).foldl
        (fun acc2 j => max acc2 (lcssDP s1.data s2.data (i + 1) (j + 1))) acc)
    0

example : lcs_length "abcde" "ace" = 3 := by decide
example : lcss_length "abcde" "ace" = 1 := by decide
example : lcss_length "xabcy" "zabcw" = 3 := by decide
example : lcs_length "AbC" "aBc" = 3 := by decide

/-! ## Data model (`process_data.py`) -/

/-- The seed paper identifier `BASE_PID`. -/
def BASE_PID : String := "0539535989147bc7033f4a34931c7b8e17f1c650"

/-- The `Paper` record (pydantic model in the source), with the source's
defaults. -/
structure Paper where
  paperId : String
  title : String
  year : Option Int := none
  venue : Option String := none
  authors : List String := []
  doi : Option String := none
  arxivId : Option String := none
  url : Option String := none
  isOpenAccess : Bool := false
  openAccessPdf : Option String := none
  abstract : Option String := none
  citationCount : Int := 0
  referenceCount : Int := 0
  tldr : Option String := none
  tldr_ja : Option String := none
  tags : List String := []
deriving DecidableEq

/-- The on-disk record store.  Each field maps a file stem to the parsed
content of the corresponding JSON file; `none` means the file is missing or
malformed (the loader logs and skips both identically).  For the TLDR
stores the inner `Option` is the parsed `tldr` field, which may itself be
null. -/
structure RecordStore where
  papersFiles : String → Option Paper
  citationFiles : String → Option (List String)
  tldrFiles : String → Option (Option String)
  tldrJaFiles : String → Option (Option String)
  tagFiles : String → Option (List String)

/-- Insertion-ordered association-list update, the embedding of Python
`d[k] = v`. -/
def dictInsert {α : Type} : List (String × α) → String → α → List (String × α)
  | [], k, v => [(k, v)]
  | (a, b) :: rest, k, v =>
    if a = k then (k, v) :: rest else (a, b) :: dictInsert rest k v

/-- Association-list lookup, the embedding of Python `d.get(k)`. -/
def dictFind {α : Type} : List (String × α) → String → Option α
  | [], _ => none
  | (a, b) :: rest, k => if a = k then some b else dictFind rest k

/-- The keys of an association list (Python `d.keys()`). -/
def keysOf {α : Type} (m : List (String × α)) : List String :=
  m.map Prod.fst

/-- Python `set(l)` as a duplicate-free list.  A Python set iterates in an
unspecified order; this embedding fixes first-occurrence order, and every
property proved below is independent of that choice. -/
def pySetOf (l : List String) : List String :=
  l.foldl (fun acc x => if x ∈ acc then acc else acc ++ [x]) []

/-- The working identifier set of `Corpus._load_data`: the identifiers in
the seed's citation record (empty when that file is missing or malformed)
together with `BASE_PID` itself. -/
def papersToLoad (store : RecordStore) : List String :=
  pySetOf ((store.citationFiles BASE_PID).getD [] ++ [BASE_PID])

/-- The `papers` mapping built by `Corpus._load_data`: for each identifier in
the working set whose paper file loads, store the paper under the `paperId`
found in the file's content (the source keys by `paper.paperId`, not by the
file stem). -/
def buildPapers (store : RecordStore) : List (String × Paper) :=
  (papersToLoad store).foldl
    (fun acc pid =>
      match store.papersFiles pid with
      | some p => dictInsert acc p.paperId p
      | none => acc)
    []

/-- The `cited_by` and `cites` mappings built by `Corpus._load_data`: for
each identifier in the working set whose citation file loads, record the
citing identifiers filtered to the working set as `cited_by[pid]`, and append
`pid` (deduplicated) to `cites[cid]` for each such citing identifier `cid`. -/
def buildAdj (store : RecordStore) :
    List (String × List String) × List (String × List String) :=
  (papersToLoad store).foldl
    (fun acc pid =>
      match store.citationFiles pid with
      | some citation_ids =>
        let filtered := citation_ids.filter (fun cid => decide (cid ∈ papersToLoad store))
        (dictInsert acc.1 pid filtered,
         filtered.foldl
           (fun cs cid =>
             let cur := (dictFind cs cid).getD []
             dictInsert cs cid (if pid ∈ cur then cur else cur ++ [pid]))
           acc.2)
      | none => acc)
    ([], [])

/-- The in-memory corpus: `papers`, `cited_by`, `cites`. -/
structure Corpus where
  papers : List (String × Paper)
  cited_by : List (String × List String)
  cites : List (String × List String)
deriving DecidableEq

/-- `Corpus.__init__` / `Corpus._load_data`. -/
def buildCorpus (store : RecordStore) : Corpus :=
  { papers := buildPapers store
    cited_by := (buildAdj store).1
    cites := (buildAdj store).2 }

/-- `Corpus._load_tldr_data`: merge the optional TLDR, Japanese TLDR and tag
records into a fresh `Paper` value (fields untouched when the record is
missing or malformed). -/
def loadTldrData (store : RecordStore) (p : Paper) : Paper :=
  { p with
    tldr := match store.tldrFiles p.paperId with
      | some v => v
      | none => p.tldr
    tldr_ja := match store.tldrJaFiles p.paperId with
      | some v => v
      | none => p.tldr_ja
    tags := match store.tagFiles p.paperId with
      | some v => v
      | none => p.tags }

/-! ## Query layer (`Corpus.get_cites`, `Corpus.get_cited_by`, search) -/

/-- The descending-`citationCount` comparison used by
`papers.sort(key=lambda p: p.citationCount, reverse=True)`. -/
def ccLE (p q : Paper) : Prop :=
  q.citationCount ≤ p.citationCount

instance : DecidableRel ccLE := fun p q =>
  inferInstanceAs (Decidable (q.citationCount ≤ p.citationCount))

instance : IsTotal Paper ccLE :=
  ⟨fun p q => le_total q.citationCount p.citationCount⟩

instance : IsTrans Paper ccLE :=
  ⟨fun _ _ _ h1 h2 => le_trans h2 h1⟩

/-- Python's stable sort, descending by `citationCount` (ties keep list
order); embedded as insertion sort, which is stable for the same
comparator. -/
def sortDescCc (l : List Paper) : List Paper :=
  List.insertionSort ccLE l

/-- The tag filter of `get_cites` / `get_cited_by`: skipped when the
argument is `None` or the empty list (Python truthiness of `if tags:`),
otherwise keeps papers with a non-empty tag list containing every requested
tag (AND). -/
def applyTagFilter : Option (List String) → List Paper → List Paper
  | none, ps => ps
  | some [], ps => ps
  | some (t :: ts), ps =>
    ps.filter (fun p => !p.tags.isEmpty && (t :: ts).all (fun tag => p.tags.contains tag))

/-- The author filter (AND), with the same truthiness convention. -/
def applyAuthorFilter : Option (List String) → List Paper → List Paper
  | none, ps => ps
  | some [], ps => ps
  | some (a :: as_), ps =>
    ps.filter (fun p => !p.authors.isEmpty && (a :: as_).all (fun au => p.authors.contains au))

/-- The venue filter (OR over normalized venues), with the same truthiness
convention; a missing or empty venue never matches. -/
def applyVenueFilter : Option (List String) → List Paper → List Paper
  | none, ps => ps
  | some [], ps => ps
  | some (v :: vs), ps =>
    let normalized := (v :: vs).map normalize_venue
    ps.filter (fun p =>
      match p.venue with
      | some ven => !(ven = "") && normalized.contains (normalize_venue ven)
      | none => false)

/-- The year filter of `get_cited_by`: keeps papers whose year is present
and at least `min_year`; skipped when `min_year is None`. -/
def applyMinYearFilter : Option Int → List Paper → List Paper
  | none, ps => ps
  | some y, ps =>
    ps.filter (fun p =>
      match p.year with
      | some yr => decide (y ≤ yr)
      | none => false)

/-- `Corpus.get_cites`: look up the derived forward adjacency, resolve
loaded papers, sort descending by `citationCount`, truncate to `limit`,
enrich, then filter by tags, authors and venues.  The `min_year` parameter
exists in the source signature but is never used in this direction. -/
def get_cites (store : RecordStore) (c : Corpus) (paper_id : String) (limit : Nat)
    (tags authors venues : Option (List String)) (min_year : Option Int) : List Paper :=
  let citation_ids := (dictFind c.cites paper_id).getD []
  let papers0 := citation_ids.filterMap (fun pid => dictFind c.papers pid)
  let papers1 := sortDescCc papers0
  let withTldr := (papers1.take limit).map (loadTldrData store)
  let withTldr := applyTagFilter tags withTldr
  let withTldr := applyAuthorFilter authors withTldr
  let withTldr := applyVenueFilter venues withTldr
  let _ := min_year
  withTldr

/-- `Corpus.get_cited_by`: the backward direction; identical pipeline plus
the year filter at the very end. -/
def get_cited_by (store : RecordStore) (c : Corpus) (paper_id : String) (limit : Nat)
    (tags authors venues : Option (List String)) (min_year : Option Int) : List Paper :=
  let cited_by_ids := (dictFind c.cited_by paper_id).getD []
  let papers0 := cited_by_ids.filterMap (fun pid => dictFind c.papers pid)
  let papers1 := sortDescCc papers0
  let withTldr := (papers1.take limit).map (loadTldrData store)
  let withTldr := applyTagFilter tags withTldr
  let withTldr := applyAuthorFilter authors withTldr
  let withTldr := applyVenueFilter venues withTldr
  applyMinYearFilter min_year withTldr

/-! ## Title resolver (`Corpus.best_match_by_title`) -/

/-- The sort key of `best_match_by_title`:
`(-lcss, -lcs, len(title), paperId)` compared lexicographically, scores
computed on the lowered query and title. -/
def sortTuple (query : String) (p : Paper) : Int ×ₗ (Int ×ₗ (Nat ×ₗ String)) :=
  toLex (-(lcss_length (lowerStr query) (lowerStr p.title) : Int),
    toLex (-(lcs_length (lowerStr query) (lowerStr p.title) : Int),
      toLex (p.title.length, p.paperId)))

/-- `p` sorts no later than `q` under the `best_match_by_title` key. -/
def keyLE (query : String) (p q : Paper) : Prop :=
  sortTuple query p ≤ sortTuple query q

instance (query : String) : DecidableRel (keyLE query) := fun p q =>
  inferInstanceAs (Decidable (sortTuple query p ≤ sortTuple query q))

instance (query : String) : IsTotal Paper (keyLE query) :=
  ⟨fun p q => le_total (sortTuple query p) (sortTuple query q)⟩

instance (query : String) : IsTrans Paper (keyLE query) :=
  ⟨fun _ _ _ h1 h2 => le_trans h1 h2⟩

/-- `Corpus.best_match_by_title`: `None` for an empty query; otherwise the
head of the stably sorted list of loaded papers (an `IndexError`, embedded
as `Except.error`, when the mapping is empty), enriched with TLDR data. -/
def best_match_by_title (store : RecordStore) (c : Corpus) (query : String) :
    Except Unit (Option Paper) :=
  if query = "" then Except.ok none
  else
    match List.insertionSort (keyLE query) (c.papers.map Prod.snd) with
    | [] => Except.error ()
    | best :: _ => Except.ok (some (loadTldrData store best))

/-! ## Full-scan queries and endpoints -/

/-- `Corpus.get_papers_by_tags`: enrich every loaded paper, keep those whose
(non-empty) tag list contains all requested tags and pass the year filter,
sort descending by `citationCount`, truncate. -/
def get_papers_by_tags (store : RecordStore) (c : Corpus) (tags : List String)
    (limit : Nat) (min_year : Option Int) : List Paper :=
  let selected := ((c.papers.map Prod.snd).map (loadTldrData store)).filter
    (fun p => !p.tags.isEmpty && tags.all (fun t => p.tags.contains t) &&
      (match min_year with
       | none => true
       | some y =>
         match p.year with
         | some yr => decide (y ≤ yr)
         | none => false))
  (sortDescCc selected).take limit

/-- `Corpus.get_papers_by_authors` (AND over authors). -/
def get_papers_by_authors (store : RecordStore) (c : Corpus) (authors : List String)
    (limit : Nat) (min_year : Option Int) : List Paper :=
  let selected := ((c.papers.map Prod.snd).map (loadTldrData store)).filter
    (fun p => !p.authors.isEmpty && authors.all (fun a => p.authors.contains a) &&
      (match min_year with
       | none => true
       | some y =>
         match p.year with
         | some yr => decide (y ≤ yr)
         | none => false))
  (sortDescCc selected).take limit

/-- `Corpus.get_papers_by_venues` (OR over normalized venues). -/
def get_papers_by_venues (store : RecordStore) (c : Corpus) (venues : List String)
    (limit : Nat) (min_year : Option Int) : List Paper :=
  let normalized := venues.map normalize_venue
  let selected := ((c.papers.map Prod.snd).map (loadTldrData store)).filter
    (fun p =>
      (match p.venue with
       | some ven => !(ven = "") && normalized.contains (normalize_venue ven)
       | none => false) &&
      (match min_year with
       | none => true
       | some y =>
         match p.year with
         | some yr => decide (y ≤ yr)
         | none => false))
  (sortDescCc selected).take limit

/-- Python `s.split(',')`: split at every comma, keeping empty pieces. -/
def splitOnComma : List Char → List (List Char)
  | [] => [[]]
  | c :: cs =>
    if c = ',' then [] :: splitOnComma cs
    else
      match splitOnComma cs with
      | h :: t => (c :: h) :: t
      | [] => [[c]]

/-- The comma-list argument parsing shared by the filter endpoints:
`[term.strip() for term in s.split(',') if term.strip()]`. -/
def parseCommaList (s : String) : List String :=
  ((splitOnComma s.data).map (fun t => String.mk (pyStrip t))).filter (fun t => t ≠ "")

/-- The `/api/papers/by-tag` endpoint: HTTP 400 when the parsed tag list is
empty, otherwise the tag query result. -/
def get_papers_by_tag (store : RecordStore) (c : Corpus) (tags : String)
    (limit : Nat) (min_year : Option Int) : Except Nat (List Paper) :=
  let tag_list := parseCommaList tags
  if tag_list = [] then Except.error 400
  else Except.ok (get_papers_by_tags store c tag_list limit min_year)

/-- The `/api/papers/by-author` endpoint. -/
def get_papers_by_author (store : RecordStore) (c : Corpus) (authors : String)
    (limit : Nat) (min_year : Option Int) : Except Nat (List Paper) :=
  let author_list := parseCommaList authors
  if author_list = [] then Except.error 400
  else Except.ok (get_papers_by_authors store c author_list limit min_year)

/-- The `/api/papers/by-venue` endpoint. -/
def get_papers_by_venue (store : RecordStore) (c : Corpus) (venues : String)
    (limit : Nat) (min_year : Option Int) : Except Nat (List Paper) :=
  let venue_list := parseCommaList venues
  if venue_list = [] then Except.error 400
  else Except.ok (get_papers_by_venues store c venue_list limit min_year)

/-! ## Tag hierarchy (`get_tag.py`) -/

/-- The static child-to-parent table `HIERARCHY` of `get_tag.py`
(tags not listed have no parents). -/
def HIERARCHY : String → List String := fun t =>
  if t = "Learned Bloom Filter" then ["Learned Index", "Bloom Filter"]
  else if t = "Bloom Filter" then ["Filter"]
  else if t = "Sketch" then ["Filter"]
  else if t = "Query optimization" then ["Database"]
  else if t = "Cardinality estimation" then ["Database"]
  else if t = "Space-Filling Curve" then ["Multidimensional"]
  else if t = "Time-series" then ["Multidimensional"]
  else []

/-- One pass of the `while changed` loop of `apply_hierarchy`: add every
parent of every tag currently in the set. -/
def hierarchyStep (s : Finset String) : Finset String :=
  s ∪ s.biUnion (fun t => (HIERARCHY t).toFinset)

/-- The `while changed` loop with explicit fuel: stop as soon as a pass adds
nothing.  Three passes always reach the fixed point because the longest
child-to-parent chain in `HIERARCHY` has length two (proved below as the
closure property of `apply_hierarchy`). -/
def applyHierarchyAux : Nat → Finset String → Finset String
  | 0, s => s
  | n + 1, s =>
    let s2 := hierarchyStep s
    if s2 = s then s else applyHierarchyAux n s2

/-- `apply_hierarchy` from `get_tag.py`: the fixed-point expansion of a tag
list under `HIERARCHY` (result is a Python set). -/
def apply_hierarchy (tags : List String) : Finset String :=
  applyHierarchyAux 3 tags.toFinset

/-! ## Concrete record stores used as test inputs -/

/-- An empty record store (every file missing). -/
def store0 : RecordStore :=
  { papersFiles := fun _ => none
    citationFiles := fun _ => none
    tldrFiles := fun _ => none
    tldrJaFiles := fun _ => none
    tagFiles := fun _ => none }

/-- An empty corpus. -/
def corpus0 : Corpus :=
  { papers := [], cited_by := [], cites := [] }

/-- The seed paper record. -/
def paperSeed : Paper :=
  { paperId := BASE_PID, title := "Seed" }

/-- A store whose seed edge record names a paper `X` whose paper file is
missing: the loader keeps `X` in the working set, so the built `cited_by`
list for the seed still mentions `X` although `X` is not a key of
`papers`. -/
def store1 : RecordStore :=
  { papersFiles := fun pid => dictFind [(BASE_PID, paperSeed)] pid
    citationFiles := fun pid => dictFind [(BASE_PID, ["X"])] pid
    tldrFiles := fun _ => none
    tldrJaFiles := fun _ => none
    tagFiles := fun _ => none }

/-- A paper cited by the seed-store records below. -/
def paperX : Paper :=
  { paperId := "X", title := "Paper X" }

/-- A store whose seed edge record lists the same identifier twice; the
loader keeps both occurrences in `cited_by`. -/
def store2 : RecordStore :=
  { papersFiles := fun pid => dictFind [(BASE_PID, paperSeed), ("X", paperX)] pid
    citationFiles := fun pid => dictFind [(BASE_PID, ["X", "X"])] pid
    tldrFiles := fun _ => none
    tldrJaFiles := fun _ => none
    tagFiles := fun _ => none }

/-- Two citing papers with distinct citation counts. -/
def paperA2 : Paper :=
  { paperId := "A", title := "Paper A", citationCount := 5 }

/-- See `paperA2`. -/
def paperB2 : Paper :=
  { paperId := "B", title := "Paper B", citationCount := 7 }

/-- A well-formed store with a duplicate-free seed edge record, used to
instantiate the round-trip theorem. -/
def store2w : RecordStore :=
  { papersFiles := fun pid =>
      dictFind [(BASE_PID, paperSeed), ("A", paperA2), ("B", paperB2)] pid
    citationFiles := fun pid => dictFind [(BASE_PID, ["A", "B"])] pid
    tldrFiles := fun _ => none
    tldrJaFiles := fun _ => none
    tagFiles := fun _ => none }

/-- A one-paper corpus used to instantiate the title-resolver theorem. -/
def corpus3 : Corpus :=
  { papers := [("p1", { paperId := "p1", title := "T" })]
    cited_by := []
    cites := [] }

example : papersToLoad store1 = ["X", BASE_PID] := by decide
example : dictFind (buildCorpus store1).cited_by BASE_PID = some ["X"] := by decide
example : keysOf (buildCorpus store1).papers = [BASE_PID] := by decide
example :
    ((get_cited_by store2 (buildCorpus store2) BASE_PID 2000 none none none none).map
      (fun p => p.paperId)) = ["X", "X"] := by decide
example :
    ((get_cited_by store2w (buildCorpus store2w) BASE_PID 2000 none none none none).map
      (fun p => p.paperId)) = ["B", "A"] := by decide
example : best_match_by_title store0 corpus0 "a" = Except.error () := rfl
example : best_match_by_title store0 corpus0 "" = Except.ok none := rfl
example : parseCommaList " , " = [] := by decide
example : parseCommaList " a ,, b " = ["a", "b"] := by decide

/-! ## Association-list and set lemmas -/

theorem dictFind_dictInsert {α : Type} (m : List (String × α)) (k : String) (v : α)
    (k' : String) :
    dictFind (dictInsert m k v) k' = if k = k' then some v else dictFind m k' := by
  induction m with
  | nil => simp only [dictInsert, dictFind]
  | cons hd tl ih =>
    obtain ⟨a, b⟩ := hd
    simp only [dictInsert]
    by_cases hak : a = k
    · subst hak
      simp only [if_pos rfl, dictFind]
      by_cases hk : a = k' <;> simp [hk]
    · rw [if_neg hak]
      simp only [dictFind, ih]
      by_cases hak' : a = k'
      · subst hak'
        rw [if_pos rfl, if_neg (fun h => hak h.symm), if_pos rfl]
      · rw [if_neg hak', if_neg hak']

theorem mem_dictInsert {α : Type} {m : List (String × α)} {k : String} {v : α}
    {x : String × α} (h : x ∈ dictInsert m k v) : x = (k, v) ∨ x ∈ m := by
  induction m with
  | nil => simpa [dictInsert] using h
  | cons hd tl ih =>
    obtain ⟨a, b⟩ := hd
    simp only [dictInsert] at h
    by_cases hak : a = k
    · rw [if_pos hak] at h
      rcases List.mem_cons.mp h with h1 | h1
      · exact Or.inl h1
      · exact Or.inr (List.mem_cons_of_mem _ h1)
    · rw [if_neg hak] at h
      rcases List.mem_cons.mp h with h1 | h1
      · exact Or.inr (h1 ▸ List.mem_cons_self _ _)
      · rcases ih h1 with h2 | h2
        · exact Or.inl h2
        · exact Or.inr (List.mem_cons_of_mem _ h2)

theorem dictFind_mem {α : Type} {m : List (String × α)} {k : String} {v : α}
    (h : dictFind m k = some v) : (k, v) ∈ m := by
  induction m with
  | nil => simp [dictFind] at h
  | cons hd tl ih =>
    obtain ⟨a, b⟩ := hd
    simp only [dictFind] at h
    by_cases hak : a = k
    · rw [if_pos hak] at h
      subst hak
      obtain rfl : b = v := Option.some.inj h
      exact List.mem_cons_self _ _
    · rw [if_neg hak] at h
      exact List.mem_cons_of_mem _ (ih h)

theorem mem_keysOf_of_dictFind {α : Type} {m : List (String × α)} {k : String} {v : α}
    (h : dictFind m k = some v) : k ∈ keysOf m := by
  unfold keysOf
  exact List.mem_map.mpr ⟨(k, v), dictFind_mem h, rfl⟩

theorem dictFind_isSome_of_mem_keysOf {α : Type} {m : List (String × α)} {k : String}
    (h : k ∈ keysOf m) : (dictFind m k).isSome := by
  induction m with
  | nil => simp [keysOf] at h
  | cons hd tl ih =>
    obtain ⟨a, b⟩ := hd
    simp only [keysOf, List.map_cons, List.mem_cons] at h
    simp only [dictFind]
    by_cases hak : a = k
    · rw [if_pos hak]; rfl
    · rw [if_neg hak]
      rcases h with h | h
      · exact absurd h.symm hak
      · exact ih h

theorem keysOf_dictInsert_self {α : Type} (m : List (String × α)) (k : String) (v : α) :
    k ∈ keysOf (dictInsert m k v) := by
  induction m with
  | nil => simp [dictInsert, keysOf]
  | cons hd tl ih =>
    obtain ⟨a, b⟩ := hd
    simp only [dictInsert]
    by_cases hak : a = k
    · rw [if_pos hak]; simp [keysOf]
    · rw [if_neg hak]
      simpa [keysOf] using Or.inr (by simpa [keysOf] using ih)

theorem keysOf_dictInsert_mono {α : Type} {m : List (String × α)} {k' : String}
    (h : k' ∈ keysOf m) (k : String) (v : α) : k' ∈ keysOf (dictInsert m k v) := by
  induction m with
  | nil => simp [keysOf] at h
  | cons hd tl ih =>
    obtain ⟨a, b⟩ := hd
    simp only [keysOf, List.map_cons, List.mem_cons] at h
    simp only [dictInsert]
    by_cases hak : a = k
    · rw [if_pos hak]
      subst hak
      simp only [keysOf, List.map_cons, List.mem_cons]
      rcases h with h | h
      · exact Or.inl h
      · exact Or.inr h
    · rw [if_neg hak]
      simp only [keysOf, List.map_cons, List.mem_cons]
      rcases h with h | h
      · exact Or.inl h
      · exact Or.inr (by simpa [keysOf] using ih h)

theorem pySetOf_go_mem (l : List String) :
    ∀ (acc : List String) (x : String),
      (x ∈ l.foldl (fun acc x => if x ∈ acc then acc else acc ++ [x]) acc ↔
        x ∈ acc ∨ x ∈ l) := by
  induction l with
  | nil => intro acc x; simp
  | cons hd tl ih =>
    intro acc x
    simp only [List.foldl_cons]
    by_cases h : hd ∈ acc
    · rw [if_pos h, ih]
      simp only [List.mem_cons]
      constructor
      · rintro (h1 | h2)
        · exact Or.inl h1
        · exact Or.inr (Or.inr h2)
      · rintro (h1 | h2 | h3)
        · exact Or.inl h1
        · exact Or.inl (h2 ▸ h)
        · exact Or.inr h3
    · rw [if_neg h, ih]
      simp only [List.mem_append, List.mem_singleton, List.mem_cons]
      tauto

theorem mem_pySetOf {l : List String} {x : String} : x ∈ pySetOf l ↔ x ∈ l := by
  unfold pySetOf
  rw [pySetOf_go_mem]
  simp

theorem pySetOf_go_nodup (l : List String) :
    ∀ acc : List String, acc.Nodup →
      (l.foldl (fun acc x => if x ∈ acc then acc else acc ++ [x]) acc).Nodup := by
  induction l with
  | nil => intro acc h; simpa using h
  | cons hd tl ih =>
    intro acc h
    simp only [List.foldl_cons]
    by_cases hm : hd ∈ acc
    · rw [if_pos hm]; exact ih acc h
    · rw [if_neg hm]
      refine ih _ ?_
      simpa [List.nodup_append] using ⟨h, hm⟩

theorem nodup_pySetOf (l : List String) : (pySetOf l).Nodup :=
  pySetOf_go_nodup l [] List.nodup_nil

theorem mem_papersToLoad_seed (store : RecordStore) : BASE_PID ∈ papersToLoad store := by
  unfold papersToLoad
  rw [mem_pySetOf]
  simp

/-! ## Graph-builder invariants -/

theorem papersFold_pair (store : RecordStore) :
    ∀ (l : List String) (acc : List (String × Paper)),
      (∀ kv ∈ acc, (kv : String × Paper).2.paperId = kv.1) →
      ∀ kv ∈ l.foldl
          (fun acc pid =>
            match store.papersFiles pid with
            | some p => dictInsert acc p.paperId p
            | none => acc) acc,
        kv.2.paperId = kv.1 := by
  intro l
  induction l with
  | nil => intro acc h kv hm; simpa using h kv (by simpa using hm)
  | cons hd tl ih =>
    intro acc h kv hm
    simp only [List.foldl_cons] at hm
    refine ih _ ?_ kv hm
    intro kv2 hm2
    cases hcf : store.papersFiles hd with
    | none =>
      rw [hcf] at hm2
      exact h kv2 hm2
    | some p =>
      rw [hcf] at hm2
      rcases mem_dictInsert hm2 with h1 | h1
      · rw [h1]
      · exact h kv2 h1

theorem buildPapers_pair (store : RecordStore) {kv : String × Paper}
    (h : kv ∈ buildPapers store) : kv.2.paperId = kv.1 :=
  papersFold_pair store _ [] (by simp) kv h

theorem dictFind_buildPapers_paperId (store : RecordStore) {k : String} {p : Paper}
    (h : dictFind (buildPapers store) k = some p) : p.paperId = k :=
  buildPapers_pair store (dictFind_mem h)

theorem papersFold_keys (store : RecordStore) :
    ∀ (l : List String) (acc : List (String × Paper)) (x : String),
      (x ∈ keysOf acc ∨ (x ∈ l ∧ ∃ q, store.papersFiles x = some q ∧ q.paperId = x)) →
      x ∈ keysOf (l.foldl
        (fun acc pid =>
          match store.papersFiles pid with
          | some p => dictInsert acc p.paperId p
          | none => acc) acc) := by
  intro l
  induction l with
  | nil =>
    intro acc x h
    rcases h with h | ⟨h, _⟩
    · simpa using h
    · simp at h
  | cons hd tl ih =>
    intro acc x h
    simp only [List.foldl_cons]
    apply ih
    rcases h with h | ⟨hmem, q, hq, hqid⟩
    · left
      cases hcf : store.papersFiles hd with
      | none => simpa [hcf] using h
      | some p => simpa [hcf] using keysOf_dictInsert_mono h p.paperId p
    · rcases List.mem_cons.mp hmem with h1 | h1
      · left
        subst h1
        rw [hq]
        simpa [hqid] using keysOf_dictInsert_self acc q.paperId q
      · exact Or.inr ⟨h1, q, hq, hqid⟩

theorem buildPapers_keys_complete (store : RecordStore) (x : String)
    (hx : x ∈ papersToLoad store)
    (hq : ∃ q, store.papersFiles x = some q ∧ q.paperId = x) :
    x ∈ keysOf (buildPapers store) :=
  papersFold_keys store _ [] x (Or.inr ⟨hx, hq⟩)

theorem citesFold_inv (store : RecordStore) (pid : String)
    (hpid : pid ∈ papersToLoad store) :
    ∀ (l2 : List String) (cs : List (String × List String)),
      (∀ kv ∈ cs,
        (∀ x ∈ (kv : String × List String).2, x ∈ papersToLoad store) ∧ kv.2.Nodup) →
      ∀ kv ∈ l2.foldl
          (fun cs cid =>
            let cur := (dictFind cs cid).getD []
            dictInsert cs cid (if pid ∈ cur then cur else cur ++ [pid])) cs,
        (∀ x ∈ kv.2, x ∈ papersToLoad store) ∧ kv.2.Nodup := by
  intro l2
  induction l2 with
  | nil => intro cs h kv hm; exact h kv (by simpa using hm)
  | cons hd tl ih =>
    intro cs h kv hm
    simp only [List.foldl_cons] at hm
    refine ih _ ?_ kv hm
    intro kv2 hm2
    have hcur : (∀ x ∈ (dictFind cs hd).getD [], x ∈ papersToLoad store) ∧
        ((dictFind cs hd).getD []).Nodup := by
      cases hf : dictFind cs hd with
      | none => simp
      | some v => simpa using h (hd, v) (dictFind_mem hf)
    rcases mem_dictInsert hm2 with h1 | h1
    · rw [h1]
      by_cases hp : pid ∈ (dictFind cs hd).getD []
      · simpa [hp] using hcur
      · rw [if_neg hp]
        constructor
        · intro x hx
          rcases List.mem_append.mp hx with h2 | h2
          · exact hcur.1 x h2
          · rw [List.mem_singleton.mp h2]; exact hpid
        · simpa [List.nodup_append] using ⟨hcur.2, hp⟩
    · exact h kv2 h1

theorem adjFold_inv (store : RecordStore) :
    ∀ (l : List String)
      (acc : List (String × List String) × List (String × List String)),
      (∀ p ∈ l, p ∈ papersToLoad store) →
      (∀ kv ∈ acc.1, ∀ x ∈ (kv : String × List String).2, x ∈ papersToLoad store) →
      (∀ kv ∈ acc.2,
        (∀ x ∈ (kv : String × List String).2, x ∈ papersToLoad store) ∧ kv.2.Nodup) →
      (∀ kv ∈ (l.foldl
          (fun acc pid =>
            match store.citationFiles pid with
            | some citation_ids =>
              let filtered :=
                citation_ids.filter (fun cid => decide (cid ∈ papersToLoad store))
              (dictInsert acc.1 pid filtered,
               filtered.foldl
                 (fun cs cid =>
                   let cur := (dictFind cs cid).getD []
                   dictInsert cs cid (if pid ∈ cur then cur else cur ++ [pid]))
                 acc.2)
            | none => acc) acc).1,
        ∀ x ∈ kv.2, x ∈ papersToLoad store) ∧
      (∀ kv ∈ (l.foldl
          (fun acc pid =>
            match store.citationFiles pid with
            | some citation_ids =>
              let filtered :=
                citation_ids.filter (fun cid => decide (cid ∈ papersToLoad store))
              (dictInsert acc.1 pid filtered,
               filtered.foldl
                 (fun cs cid =>
                   let cur := (dictFind cs cid).getD []
                   dictInsert cs cid (if pid ∈ cur then cur else cur ++ [pid]))
                 acc.2)
            | none => acc) acc).2,
        (∀ x ∈ kv.2, x ∈ papersToLoad store) ∧ kv.2.Nodup) := by
  intro l
  induction l with
  | nil =>
    intro acc _ h1 h2
    exact ⟨fun kv hm => h1 kv (by simpa using hm), fun kv hm => h2 kv (by simpa using hm)⟩
  | cons hd tl ih =>
    intro acc hl h1 h2
    simp only [List.foldl_cons]
    cases hcf : store.citationFiles hd with
    | none =>
      simp only [hcf]
      exact ih acc (fun p hp => hl p (List.mem_cons_of_mem _ hp)) h1 h2
    | some ids =>
      simp only [hcf]
      refine ih _ (fun p hp => hl p (List.mem_cons_of_mem _ hp)) ?_ ?_
      · intro kv hm
        dsimp only at hm
        rcases mem_dictInsert hm with h3 | h3
        · rw [h3]
          intro x hx
          have := List.mem_filter.mp hx
          exact of_decide_eq_true this.2
        · exact h1 kv h3
      · intro kv hm
        dsimp only at hm
        exact citesFold_inv store hd (hl hd (List.mem_cons_self _ _)) _ acc.2 h2 kv hm

theorem buildAdj_cited_by_sub (store : RecordStore) {p : String} {v : List String}
    (h : dictFind (buildAdj store).1 p = some v) : ∀ x ∈ v, x ∈ papersToLoad store := by
  have := (adjFold_inv store (papersToLoad store) ([], []) (fun _ hp => hp)
    (by simp) (by simp)).1 (p, v) (dictFind_mem h)
  exact this

theorem buildAdj_cites_sub (store : RecordStore) {p : String} {v : List String}
    (h : dictFind (buildAdj store).2 p = some v) :
    (∀ x ∈ v, x ∈ papersToLoad store) ∧ v.Nodup := by
  exact (adjFold_inv store (papersToLoad store) ([], []) (fun _ hp => hp)
    (by simp) (by simp)).2 (p, v) (dictFind_mem h)

/-! ## C1: graph closure -/

/-- C1 counterexample: in `store1` the seed's edge record names `X`, whose
paper file is missing; after the build, `BASE_PID` is a key of `papers` and
`X` appears in `cited_by[BASE_PID]`, but `X` is not a key of `papers` — so
the closure invariant as claimed fails on stores with skipped paper
files. -/
theorem c1_closure_counterexample :
    "X" ∈ ((dictFind (buildCorpus store1).cited_by BASE_PID).getD []) ∧
    BASE_PID ∈ keysOf (buildCorpus store1).papers ∧
    "X" ∉ keysOf (buildCorpus store1).papers := by decide

/-- C1 (amended): every identifier stored in a `cited_by` or `cites`
adjacency list lies in the working identifier set
(seed plus the seed edge record's identifiers); when every Paper file of the
working set is present, well-formed and keyed consistently, those
identifiers are moreover keys of the `papers` mapping, which is the closure
invariant as originally claimed. -/
theorem c1_closure_amended (store : RecordStore) :
    (∀ p v, dictFind (buildCorpus store).cited_by p = some v →
      ∀ x ∈ v, x ∈ papersToLoad store) ∧
    (∀ p v, dictFind (buildCorpus store).cites p = some v →
      ∀ x ∈ v, x ∈ papersToLoad store) ∧
    ((∀ pid ∈ papersToLoad store,
        ∃ q, store.papersFiles pid = some q ∧ q.paperId = pid) →
      (∀ p v, dictFind (buildCorpus store).cited_by p = some v →
        ∀ x ∈ v, x ∈ keysOf (buildCorpus store).papers) ∧
      (∀ p v, dictFind (buildCorpus store).cites p = some v →
        ∀ x ∈ v, x ∈ keysOf (buildCorpus store).papers)) := by
  refine ⟨?_, ?_, ?_⟩
  · intro p v h x hx
    exact buildAdj_cited_by_sub store h x hx
  · intro p v h x hx
    exact (buildAdj_cites_sub store h).1 x hx
  · intro hfull
    constructor
    · intro p v h x hx
      have hptl := buildAdj_cited_by_sub store h x hx
      exact buildPapers_keys_complete store x hptl (hfull x hptl)
    · intro p v h x hx
      have hptl := (buildAdj_cites_sub store h).1 x hx
      exact buildPapers_keys_complete store x hptl (hfull x hptl)

/-! ## C5/C6: filter-after-limit and the year-filter direction -/

theorem loadTldrData_paperId (store : RecordStore) (p : Paper) :
    (loadTldrData store p).paperId = p.paperId := rfl

theorem loadTldrData_citationCount (store : RecordStore) (p : Paper) :
    (loadTldrData store p).citationCount = p.citationCount := rfl

theorem applyTagFilter_sublist (o : Option (List String)) (ps : List Paper) :
    (applyTagFilter o ps).Sublist ps := by
  match o with
  | none => exact List.Sublist.refl ps
  | some [] => exact List.Sublist.refl ps
  | some (t :: ts) => exact List.filter_sublist ps

theorem applyAuthorFilter_sublist (o : Option (List String)) (ps : List Paper) :
    (applyAuthorFilter o ps).Sublist ps := by
  match o with
  | none => exact List.Sublist.refl ps
  | some [] => exact List.Sublist.refl ps
  | some (a :: as_) => exact List.filter_sublist ps

theorem applyVenueFilter_sublist (o : Option (List String)) (ps : List Paper) :
    (applyVenueFilter o ps).Sublist ps := by
  match o with
  | none => exact List.Sublist.refl ps
  | some [] => exact List.Sublist.refl ps
  | some (v :: vs) => exact List.filter_sublist ps

theorem applyMinYearFilter_sublist (o : Option Int) (ps : List Paper) :
    (applyMinYearFilter o ps).Sublist ps := by
  match o with
  | none => exact List.Sublist.refl ps
  | some y => exact List.filter_sublist ps

/-- C5: in both neighbor directions the pipeline first sorts by descending
`citationCount` and truncates to `limit`, and only then filters, so every
filtered result is a sublist of the unfiltered top-`limit` result and its
length never exceeds `limit`, no matter how many matching papers lie beyond
the truncation point. -/
theorem c5_filter_after_limit (store : RecordStore) (c : Corpus) (paper_id : String)
    (limit : Nat) (tags authors venues : Option (List String)) (min_year : Option Int) :
    (get_cites store c paper_id limit tags authors venues min_year).Sublist
      (get_cites store c paper_id limit none none none none) ∧
    (get_cites store c paper_id limit tags authors venues min_year).length ≤ limit ∧
    (get_cited_by store c paper_id limit tags authors venues min_year).Sublist
      (get_cited_by store c paper_id limit none none none none) ∧
    (get_cited_by store c paper_id limit tags authors venues min_year).length ≤ limit := by
  have base_cites :
      get_cites store c paper_id limit none none none none =
        ((sortDescCc (((dictFind c.cites paper_id).getD []).filterMap
          (fun pid => dictFind c.papers pid))).take limit).map (loadTldrData store) := rfl
  have base_cited :
      get_cited_by store c paper_id limit none none none none =
        ((sortDescCc (((dictFind c.cited_by paper_id).getD []).filterMap
          (fun pid => dictFind c.papers pid))).take limit).map (loadTldrData store) := rfl
  have hsub1 :
      (get_cites store c paper_id limit tags authors venues min_year).Sublist
        (get_cites store c paper_id limit none none none none) := by
    rw [base_cites]
    unfold get_cites
    exact ((applyVenueFilter_sublist venues _).trans
      ((applyAuthorFilter_sublist authors _).trans (applyTagFilter_sublist tags _)))
  have hsub2 :
      (get_cited_by store c paper_id limit tags authors venues min_year).Sublist
        (get_cited_by store c paper_id limit none none none none) := by
    rw [base_cited]
    unfold get_cited_by
    exact (applyMinYearFilter_sublist min_year _).trans
      ((applyVenueFilter_sublist venues _).trans
        ((applyAuthorFilter_sublist authors _).trans (applyTagFilter_sublist tags _)))
  have hlen1 : (get_cites store c paper_id limit none none none none).length ≤ limit := by
    rw [base_cites, List.length_map, List.length_take]
    exact min_le_left _ _
  have hlen2 : (get_cited_by store c paper_id limit none none none none).length ≤ limit := by
    rw [base_cited, List.length_map, List.length_take]
    exact min_le_left _ _
  exact ⟨hsub1, le_trans hsub1.length_le hlen1, hsub2, le_trans hsub2.length_le hlen2⟩

/-- C6: `get_cites` returns the same list for every `min_year` (the
parameter is ignored in the cites direction), while `get_cited_by` with
`min_year` keeps exactly those papers of the unfiltered result whose year is
present and at least `min_year` (a missing year never matches). -/
theorem c6_year_filter_direction (store : RecordStore) (c : Corpus) (paper_id : String)
    (limit : Nat) (tags authors venues : Option (List String)) :
    (∀ y1 y2 : Option Int,
      get_cites store c paper_id limit tags authors venues y1 =
        get_cites store c paper_id limit tags authors venues y2) ∧
    (∀ y : Int,
      get_cited_by store c paper_id limit tags authors venues (some y) =
        (get_cited_by store c paper_id limit tags authors venues none).filter
          (fun p =>
            match p.year with
            | some yr => decide (y ≤ yr)
            | none => false)) := by
  exact ⟨fun _ _ => rfl, fun _ => rfl⟩

/-! ## C2: round trip through the seed's edge record -/

theorem adjFold_cb_find_notmem (store : RecordStore) :
    ∀ (l : List String)
      (acc : List (String × List String) × List (String × List String))
      (pid : String), pid ∉ l →
      dictFind (l.foldl
        (fun acc pid =>
          match store.citationFiles pid with
          | some citation_ids =>
            let filtered :=
              citation_ids.filter (fun cid => decide (cid ∈ papersToLoad store))
            (dictInsert acc.1 pid filtered,
             filtered.foldl
               (fun cs cid =>
                 let cur := (dictFind cs cid).getD []
                 dictInsert cs cid (if pid ∈ cur then cur else cur ++ [pid]))
               acc.2)
          | none => acc) acc).1 pid = dictFind acc.1 pid := by
  intro l
  induction l with
  | nil => intro acc pid _; rfl
  | cons hd tl ih =>
    intro acc pid hpid
    have hne : hd ≠ pid := fun h => hpid (h ▸ List.mem_cons_self _ _)
    have htl : pid ∉ tl := fun h => hpid (List.mem_cons_of_mem _ h)
    simp only [List.foldl_cons]
    rw [ih _ pid htl]
    cases hcf : store.citationFiles hd with
    | none => simp [hcf]
    | some ids =>
      simp only [hcf]
      rw [dictFind_dictInsert, if_neg hne]

theorem adjFold_cb_find (store : RecordStore) :
    ∀ (l : List String)
      (acc : List (String × List String) × List (String × List String))
      (pid : String), l.Nodup → pid ∈ l →
      dictFind (l.foldl
        (fun acc pid =>
          match store.citationFiles pid with
          | some citation_ids =>
            let filtered :=
              citation_ids.filter (fun cid => decide (cid ∈ papersToLoad store))
            (dictInsert acc.1 pid filtered,
             filtered.foldl
               (fun cs cid =>
                 let cur := (dictFind cs cid).getD []
                 dictInsert cs cid (if pid ∈ cur then cur else cur ++ [pid]))
               acc.2)
          | none => acc) acc).1 pid =
        match store.citationFiles pid with
        | some ids =>
          some (ids.filter (fun cid => decide (cid ∈ papersToLoad store)))
        | none => dictFind acc.1 pid := by
  intro l
  induction l with
  | nil => intro acc pid _ hmem; simp at hmem
  | cons hd tl ih =>
    intro acc pid hnd hmem
    have hhd : hd ∉ tl := (List.nodup_cons.mp hnd).1
    have htl : tl.Nodup := (List.nodup_cons.mp hnd).2
    simp only [List.foldl_cons]
    rcases List.mem_cons.mp hmem with rfl | hmem2
    · rw [adjFold_cb_find_notmem store tl _ pid hhd]
      cases hcf : store.citationFiles pid with
      | none => simp [hcf]
      | some ids =>
        simp only [hcf]
        rw [dictFind_dictInsert, if_pos rfl]
    · rw [ih _ pid htl hmem2]
      have hne : hd ≠ pid := fun h => hhd (h ▸ hmem2)
      cases hcf2 : store.citationFiles pid with
      | none =>
        simp only
        cases hcf : store.citationFiles hd with
        | none => simp [hcf]
        | some ids =>
          simp only [hcf]
          rw [dictFind_dictInsert, if_neg hne]
      | some ids2 => simp

theorem buildAdj_cb_find (store : RecordStore) (pid : String)
    (h : pid ∈ papersToLoad store) :
    dictFind (buildAdj store).1 pid =
      (store.citationFiles pid).map
        (fun ids => ids.filter (fun cid => decide (cid ∈ papersToLoad store))) := by
  unfold buildAdj
  rw [adjFold_cb_find store (papersToLoad store) ([], []) pid
    (nodup_pySetOf _) h]
  cases hcf : store.citationFiles pid with
  | none => simp [hcf, dictFind]
  | some ids => simp [hcf]

/-- The identifiers of the seed's edge record that survive the working-set
filter and resolve to a loaded paper — with multiplicity, in record
order. -/
def seedRoundTripIds (store : RecordStore) : List String :=
  ((store.citationFiles BASE_PID).getD []).filter
    (fun cid => decide (cid ∈ papersToLoad store) &&
      (dictFind (buildPapers store) cid).isSome)

theorem roundtrip_ids (store : RecordStore) :
    ∀ ids : List String,
      ((ids.filter (fun cid => decide (cid ∈ papersToLoad store))).filterMap
        (fun x => dictFind (buildPapers store) x)).map (fun p => p.paperId) =
      ids.filter (fun cid => decide (cid ∈ papersToLoad store) &&
        (dictFind (buildPapers store) cid).isSome) := by
  intro ids
  induction ids with
  | nil => rfl
  | cons hd tl ih =>
    by_cases hmem : hd ∈ papersToLoad store
    · cases hf : dictFind (buildPapers store) hd with
      | none => simp [List.filter_cons, List.filterMap_cons, hmem, hf, ih]
      | some p =>
        have hpid : p.paperId = hd := dictFind_buildPapers_paperId store hf
        simp [List.filter_cons, List.filterMap_cons, hmem, hf, ih, hpid]
    · simp [List.filter_cons, hmem, ih]

theorem sortDescCc_perm (l : List Paper) : (sortDescCc l).Perm l :=
  List.perm_insertionSort ccLE l

theorem sortDescCc_sorted (l : List Paper) : List.Pairwise ccLE (sortDescCc l) :=
  List.sorted_insertionSort ccLE l

theorem map_paperId_enrich (store : RecordStore) (l : List Paper) :
    (l.map (loadTldrData store)).map (fun p => p.paperId) = l.map (fun p => p.paperId) := by
  rw [List.map_map]
  exact List.map_congr_left (fun a _ => loadTldrData_paperId store a)

/-- C2 counterexample: in `store2` the seed's edge record lists `X` twice;
both the derived `cited_by[BASE_PID]` adjacency list and the result of
`get_cited_by(seed, limit=2000)` contain the duplicate, so neither is
deduplicated as claimed. -/
theorem c2_round_trip_counterexample :
    ¬ (((get_cited_by store2 (buildCorpus store2) BASE_PID 2000 none none none none).map
      (fun p => p.paperId)).Nodup) ∧
    ¬ (((dictFind (buildCorpus store2).cited_by BASE_PID).getD []).Nodup) := by decide

/-- C2 (amended): `get_cited_by(seed, limit=2000)` with no filters returns
exactly the papers named by the seed edge record's `citationPaperIds`
restricted to loaded identifiers, kept with their multiplicities in the
record (not deduplicated), sorted by descending `citationCount`; the
deduplication at adjacency-construction time applies only to the derived
`cites` lists, which are always duplicate-free. -/
theorem c2_round_trip_amended (store : RecordStore)
    (h : (seedRoundTripIds store).length ≤ 2000) :
    ((get_cited_by store (buildCorpus store) BASE_PID 2000 none none none none).map
      (fun p => p.paperId)).Perm (seedRoundTripIds store) ∧
    List.Pairwise (fun p q : Paper => q.citationCount ≤ p.citationCount)
      (get_cited_by store (buildCorpus store) BASE_PID 2000 none none none none) ∧
    (∀ k v, dictFind (buildCorpus store).cites k = some v → v.Nodup) := by
  have hids : (dictFind (buildAdj store).1 BASE_PID).getD [] =
      ((store.citationFiles BASE_PID).getD []).filter
        (fun cid => decide (cid ∈ papersToLoad store)) := by
    have hfind := buildAdj_cb_find store BASE_PID (mem_papersToLoad_seed store)
    cases hcf : store.citationFiles BASE_PID with
    | none => rw [hcf] at hfind; simp [hfind]
    | some raw => rw [hcf] at hfind; simp [hfind]
  have hmap0 : ((((store.citationFiles BASE_PID).getD []).filter
      (fun cid => decide (cid ∈ papersToLoad store))).filterMap
      (fun x => dictFind (buildPapers store) x)).map (fun p => p.paperId) =
      seedRoundTripIds store := roundtrip_ids store _
  have hlen0 : ((((store.citationFiles BASE_PID).getD []).filter
      (fun cid => decide (cid ∈ papersToLoad store))).filterMap
      (fun x => dictFind (buildPapers store) x)).length ≤ 2000 := by
    have h2 := congrArg List.length hmap0
    rw [List.length_map] at h2
    rw [h2]; exact h
  have htake : (sortDescCc ((((store.citationFiles BASE_PID).getD []).filter
      (fun cid => decide (cid ∈ papersToLoad store))).filterMap
      (fun x => dictFind (buildPapers store) x))).take 2000 =
      sortDescCc ((((store.citationFiles BASE_PID).getD []).filter
      (fun cid => decide (cid ∈ papersToLoad store))).filterMap
      (fun x => dictFind (buildPapers store) x)) :=
    List.take_of_length_le (by rw [(sortDescCc_perm _).length_eq]; exact hlen0)
  have hres2 : get_cited_by store (buildCorpus store) BASE_PID 2000 none none none none =
      (sortDescCc ((((store.citationFiles BASE_PID).getD []).filter
        (fun cid => decide (cid ∈ papersToLoad store))).filterMap
        (fun x => dictFind (buildPapers store) x))).map (loadTldrData store) := by
    show ((sortDescCc (((dictFind (buildAdj store).1 BASE_PID).getD []).filterMap
      (fun x => dictFind (buildPapers store) x))).take 2000).map (loadTldrData store) = _
    rw [hids, htake]
  refine ⟨?_, ?_, ?_⟩
  · rw [hres2, map_paperId_enrich, ← hmap0]
    exact (sortDescCc_perm _).map _
  · rw [hres2]
    exact List.Pairwise.map (loadTldrData store) (fun a b hab => hab) (sortDescCc_sorted _)
  · intro k v hv
    exact (buildAdj_cites_sub store hv).2

/-- C2 witness: a concrete duplicate-free store on which the amended
round-trip theorem is instantiated; the seed's two citers come back sorted
by descending citation count and the derived `cites` lists are
duplicate-free. -/
theorem c2_round_trip_witness :
    (seedRoundTripIds store2w).length ≤ 2000 ∧
    (((get_cited_by store2w (buildCorpus store2w) BASE_PID 2000 none none none none).map
      (fun p => p.paperId)).Perm (seedRoundTripIds store2w) ∧
    List.Pairwise (fun p q : Paper => q.citationCount ≤ p.citationCount)
      (get_cited_by store2w (buildCorpus store2w) BASE_PID 2000 none none none none) ∧
    (∀ k v, dictFind (buildCorpus store2w).cites k = some v → v.Nodup)) :=
  ⟨by decide, c2_round_trip_amended store2w (by decide)⟩

/-! ## C3/C4: title resolver -/

/-- C3: for a non-empty query over a non-empty mapping,
`best_match_by_title` returns (enriched) a loaded paper that is minimal
under the tuple `(-LCSS, -LCS, title length, paperId)`; in particular, among
papers tying on LCSS, LCS and title length, the returned one has the
lexicographically least `paperId`. -/
theorem c3_best_match_minimal (store : RecordStore) (c : Corpus) (query : String)
    (hq : query ≠ "") (hne : c.papers ≠ []) :
    ∃ b, b ∈ c.papers.map Prod.snd ∧
      best_match_by_title store c query = Except.ok (some (loadTldrData store b)) ∧
      (∀ p ∈ c.papers.map Prod.snd, keyLE query b p) ∧
      (∀ p ∈ c.papers.map Prod.snd,
        lcss_length (lowerStr query) (lowerStr b.title) =
          lcss_length (lowerStr query) (lowerStr p.title) →
        lcs_length (lowerStr query) (lowerStr b.title) =
          lcs_length (lowerStr query) (lowerStr p.title) →
        b.title.length = p.title.length → b.paperId ≤ p.paperId) := by
  have hperm := List.perm_insertionSort (keyLE query) (c.papers.map Prod.snd)
  cases hsort : List.insertionSort (keyLE query) (c.papers.map Prod.snd) with
  | nil =>
    exfalso
    rw [hsort] at hperm
    exact hne (List.map_eq_nil_iff.mp hperm.symm.eq_nil)
  | cons b t =>
    have hmin : ∀ p ∈ c.papers.map Prod.snd, keyLE query b p := by
      intro p hp
      have hp2 : p ∈ List.insertionSort (keyLE query) (c.papers.map Prod.snd) :=
        hperm.mem_iff.mpr hp
      rw [hsort] at hp2
      rcases List.mem_cons.mp hp2 with rfl | hp3
      · exact le_refl (sortTuple query p)
      · have hs := List.sorted_insertionSort (keyLE query) (c.papers.map Prod.snd)
        rw [hsort] at hs
        exact List.rel_of_sorted_cons hs p hp3
    refine ⟨b, ?_, ?_, hmin, ?_⟩
    · have : b ∈ List.insertionSort (keyLE query) (c.papers.map Prod.snd) := by
        rw [hsort]; exact List.mem_cons_self b t
      exact hperm.mem_iff.mp this
    · unfold best_match_by_title
      rw [if_neg hq, hsort]
    · intro p hp h1 h2 h3
      have hk := hmin p hp
      unfold keyLE sortTuple at hk
      rcases (Prod.Lex.le_iff _ _).mp hk with hlt | ⟨_, hrest⟩
      · exact absurd (h1 ▸ hlt) (lt_irrefl _)
      · rcases (Prod.Lex.le_iff _ _).mp hrest with hlt2 | ⟨_, hrest2⟩
        · exact absurd (h2 ▸ hlt2) (lt_irrefl _)
        · rcases (Prod.Lex.le_iff _ _).mp hrest2 with hlt3 | ⟨_, hrest3⟩
          · exact absurd (h3 ▸ hlt3) (lt_irrefl _)
          · exact hrest3

/-- C3 witness: the resolver theorem instantiated on a one-paper corpus. -/
theorem c3_best_match_witness :
    "T" ≠ "" ∧ corpus3.papers ≠ [] ∧
    (∃ b, b ∈ corpus3.papers.map Prod.snd ∧
      best_match_by_title store0 corpus3 "T" = Except.ok (some (loadTldrData store0 b)) ∧
      (∀ p ∈ corpus3.papers.map Prod.snd, keyLE "T" b p) ∧
      (∀ p ∈ corpus3.papers.map Prod.snd,
        lcss_length (lowerStr "T") (lowerStr b.title) =
          lcss_length (lowerStr "T") (lowerStr p.title) →
        lcs_length (lowerStr "T") (lowerStr b.title) =
          lcs_length (lowerStr "T") (lowerStr p.title) →
        b.title.length = p.title.length → b.paperId ≤ p.paperId)) :=
  ⟨by decide, by decide, c3_best_match_minimal store0 corpus3 "T" (by decide) (by decide)⟩

/-- C4 counterexample: over an empty `papers` mapping a non-empty query does
not return `none` — it fails (the source indexes `sorted(...)[0]`, an
`IndexError`, embedded as `Except.error`). -/
theorem c4_best_match_counterexample :
    best_match_by_title store0 corpus0 "a" ≠ Except.ok none := by
  intro hcontra
  rw [show best_match_by_title store0 corpus0 "a" = Except.error () from rfl] at hcontra
  exact Except.noConfusion hcontra

/-- C4 (amended): an empty query returns `none` over every mapping (empty or
not, without failing); over an empty mapping a non-empty query raises an
index error instead of returning `none` (only the empty query returns `none`
there). -/
theorem c4_best_match_emptiness_amended (store : RecordStore) (c : Corpus)
    (query : String) :
    best_match_by_title store c "" = Except.ok none ∧
    (c.papers = [] →
      best_match_by_title store c query =
        (if query = "" then Except.ok none else Except.error ())) := by
  constructor
  · unfold best_match_by_title
    rw [if_pos rfl]
  · intro hc
    unfold best_match_by_title
    by_cases hq : query = ""
    · rw [if_pos hq, if_pos hq]
    · rw [if_neg hq, if_neg hq, hc]
      rfl

/-- C4 witness: the amended contract instantiated at the empty corpus and
the query `"a"`. -/
theorem c4_best_match_witness :
    corpus0.papers = [] ∧
    best_match_by_title store0 corpus0 "" = Except.ok none ∧
    best_match_by_title store0 corpus0 "a" =
      (if "a" = "" then Except.ok none else Except.error ()) :=
  ⟨rfl, (c4_best_match_emptiness_amended store0 corpus0 "a").1,
    (c4_best_match_emptiness_amended store0 corpus0 "a").2 rfl⟩

/-! ## C10: empty AND-filter endpoints -/

/-- C10: when the comma-separated filter argument parses to the empty list
(empty string, or only whitespace/empty terms), each AND-filter endpoint
returns HTTP 400 instead of papers. -/
theorem c10_empty_filter_rejected (store : RecordStore) (c : Corpus) (s : String)
    (limit : Nat) (min_year : Option Int) (h : parseCommaList s = []) :
    get_papers_by_tag store c s limit min_year = Except.error 400 ∧
    get_papers_by_author store c s limit min_year = Except.error 400 ∧
    get_papers_by_venue store c s limit min_year = Except.error 400 := by
  refine ⟨?_, ?_, ?_⟩
  · unfold get_papers_by_tag
    rw [h]
    rfl
  · unfold get_papers_by_author
    rw [h]
    rfl
  · unfold get_papers_by_venue
    rw [h]
    rfl

/-- C10 witness: the argument `" , "` parses to the empty list and all three
endpoints answer 400 on it. -/
theorem c10_empty_filter_witness :
    parseCommaList " , " = [] ∧
    (get_papers_by_tag store0 corpus0 " , " 2000 none = Except.error 400 ∧
      get_papers_by_author store0 corpus0 " , " 2000 none = Except.error 400 ∧
      get_papers_by_venue store0 corpus0 " , " 2000 none = Except.error 400) :=
  ⟨by decide, c10_empty_filter_rejected store0 corpus0 " , " 2000 none (by decide)⟩

/-! ## C9: tag hierarchy closure -/

theorem mem_hierarchyStep {s : Finset String} {x : String} :
    x ∈ hierarchyStep s ↔ x ∈ s ∨ ∃ y ∈ s, x ∈ HIERARCHY y := by
  simp [hierarchyStep, Finset.mem_union, Finset.mem_biUnion, List.mem_toFinset]

theorem subset_hierarchyStep (s : Finset String) : s ⊆ hierarchyStep s :=
  Finset.subset_union_left

theorem closed_of_fix {s : Finset String} (h : hierarchyStep s = s) :
    ∀ t ∈ s, ∀ p ∈ HIERARCHY t, p ∈ s := by
  intro t ht p hp
  have : p ∈ hierarchyStep s := mem_hierarchyStep.mpr (Or.inr ⟨t, ht, hp⟩)
  rwa [h] at this

theorem hierarchy_parents_mem {t p : String} (hp : p ∈ HIERARCHY t) :
    p = "Learned Index" ∨ p = "Bloom Filter" ∨ p = "Filter" ∨ p = "Database" ∨
      p = "Multidimensional" := by
  unfold HIERARCHY at hp
  split_ifs at hp <;> simp at hp <;> tauto

theorem hierarchy_depth (t p q : String) (hp : p ∈ HIERARCHY t)
    (hq : q ∈ HIERARCHY p) : HIERARCHY q = [] := by
  rcases hierarchy_parents_mem hp with rfl | rfl | rfl | rfl | rfl
  · rw [show HIERARCHY "Learned Index" = [] from by decide] at hq
    simp at hq
  · rw [show HIERARCHY "Bloom Filter" = ["Filter"] from by decide] at hq
    rw [List.mem_singleton.mp hq]
    decide
  · rw [show HIERARCHY "Filter" = [] from by decide] at hq
    simp at hq
  · rw [show HIERARCHY "Database" = [] from by decide] at hq
    simp at hq
  · rw [show HIERARCHY "Multidimensional" = [] from by decide] at hq
    simp at hq

theorem step3_closed (s : Finset String) :
    ∀ t ∈ hierarchyStep (hierarchyStep (hierarchyStep s)),
      ∀ p ∈ HIERARCHY t, p ∈ hierarchyStep (hierarchyStep (hierarchyStep s)) := by
  intro t ht p hp
  rcases mem_hierarchyStep.mp ht with h2 | ⟨y, hy, hty⟩
  · exact mem_hierarchyStep.mpr (Or.inr ⟨t, h2, hp⟩)
  · rcases mem_hierarchyStep.mp hy with h3 | ⟨z, hz, hyz⟩
    · exact mem_hierarchyStep.mpr
        (Or.inr ⟨t, mem_hierarchyStep.mpr (Or.inr ⟨y, h3, hty⟩), hp⟩)
    · rw [hierarchy_depth z y t hyz hty] at hp
      simp at hp

theorem subset_applyHierarchyAux : ∀ (n : Nat) (s : Finset String),
    s ⊆ applyHierarchyAux n s := by
  intro n
  induction n with
  | zero => intro s; exact Finset.Subset.refl s
  | succ n ih =>
    intro s
    simp only [applyHierarchyAux]
    by_cases h : hierarchyStep s = s
    · rw [if_pos h]
    · rw [if_neg h]
      exact (subset_hierarchyStep s).trans (ih (hierarchyStep s))

theorem applyHierarchyAux_minimal : ∀ (n : Nat) (s S : Finset String),
    s ⊆ S → (∀ t ∈ S, ∀ p ∈ HIERARCHY t, p ∈ S) → applyHierarchyAux n s ⊆ S := by
  intro n
  induction n with
  | zero => intro s S hsub _; exact hsub
  | succ n ih =>
    intro s S hsub hclosed
    simp only [applyHierarchyAux]
    by_cases h : hierarchyStep s = s
    · rw [if_pos h]; exact hsub
    · rw [if_neg h]
      refine ih (hierarchyStep s) S ?_ hclosed
      intro x hx
      rcases mem_hierarchyStep.mp hx with h1 | ⟨y, hy, hxy⟩
      · exact hsub h1
      · exact hclosed y (hsub hy) x hxy

theorem applyHierarchyAux3_closed (s : Finset String) :
    ∀ t ∈ applyHierarchyAux 3 s, ∀ p ∈ HIERARCHY t, p ∈ applyHierarchyAux 3 s := by
  simp only [applyHierarchyAux]
  split_ifs with h1 h2 h3
  · exact closed_of_fix h1
  · exact closed_of_fix h2
  · exact closed_of_fix h3
  · exact step3_closed s

/-- C9: `apply_hierarchy` terminates (it is a total function reaching the
`while` loop's fixed point within three passes) and returns the least
superset of the input tag set closed under the child-to-parent `HIERARCHY`
table: it contains the input, it contains every parent of each member, and
it is contained in every closed superset of the input. -/
theorem c9_apply_hierarchy_closure (tags : List String) :
    (∀ t ∈ tags, t ∈ apply_hierarchy tags) ∧
    (∀ t ∈ apply_hierarchy tags, ∀ p ∈ HIERARCHY t, p ∈ apply_hierarchy tags) ∧
    (∀ S : Finset String, (∀ t ∈ tags, t ∈ S) →
      (∀ t ∈ S, ∀ p ∈ HIERARCHY t, p ∈ S) → apply_hierarchy tags ⊆ S) := by
  refine ⟨?_, ?_, ?_⟩
  · intro t ht
    exact subset_applyHierarchyAux 3 _ (List.mem_toFinset.mpr ht)
  · exact applyHierarchyAux3_closed _
  · intro S hsub hclosed
    exact applyHierarchyAux_minimal 3 _ S
      (fun t ht => hsub t (List.mem_toFinset.mp ht)) hclosed

/-- C9 witness: the closure theorem instantiated on
`["Learned Bloom Filter"]` against the concrete closed superset
`{Learned Bloom Filter, Learned Index, Bloom Filter, Filter}`. -/
theorem c9_apply_hierarchy_witness :
    (∀ t ∈ ["Learned Bloom Filter"],
      t ∈ ({"Learned Bloom Filter", "Learned Index", "Bloom Filter", "Filter"} :
        Finset String)) ∧
    apply_hierarchy ["Learned Bloom Filter"] ⊆
      ({"Learned Bloom Filter", "Learned Index", "Bloom Filter", "Filter"} :
        Finset String) :=
  ⟨by decide, (c9_apply_hierarchy_closure ["Learned Bloom Filter"]).2.2 _
    (by decide) (by decide)⟩

/-! ## C8: similarity-score inequalities.  First, fuel elimination for the
LCS table. -/

theorem lcsDPF_zero_left (s1 s2 : List Char) (f j : Nat) :
    lcsDPF s1 s2 f 0 j = 0 := by
  cases f <;> rfl

theorem lcsDPF_zero_right (s1 s2 : List Char) (f i : Nat) :
    lcsDPF s1 s2 f i 0 = 0 := by
  cases f <;> cases i <;> rfl

theorem lcsDPF_fuel : ∀ (f1 : Nat) (s1 s2 : List Char) (f2 i j : Nat),
    i + j ≤ f1 → i + j ≤ f2 → lcsDPF s1 s2 f1 i j = lcsDPF s1 s2 f2 i j := by
  intro f1
  induction f1 with
  | zero =>
    intro s1 s2 f2 i j h1 _
    have hi : i = 0 := by omega
    subst hi
    rw [lcsDPF_zero_left, lcsDPF_zero_left]
  | succ f ih =>
    intro s1 s2 f2 i j h1 h2
    cases i with
    | zero => rw [lcsDPF_zero_left, lcsDPF_zero_left]
    | succ i =>
      cases j with
      | zero => rw [lcsDPF_zero_right, lcsDPF_zero_right]
      | succ j =>
        cases f2 with
        | zero => exact absurd h2 (by omega)
        | succ f2 =>
          simp only [lcsDPF]
          rw [ih s1 s2 f2 i j (by omega) (by omega),
            ih s1 s2 f2 i (j + 1) (by omega) (by omega),
            ih s1 s2 f2 (i + 1) j (by omega) (by omega)]

theorem lcsDP_zero_left (s1 s2 : List Char) (j : Nat) : lcsDP s1 s2 0 j = 0 := by
  unfold lcsDP
  rw [lcsDPF_zero_left]

theorem lcsDP_zero_right (s1 s2 : List Char) (i : Nat) : lcsDP s1 s2 i 0 = 0 := by
  unfold lcsDP
  rw [lcsDPF_zero_right]

theorem lcsDP_succ_succ (s1 s2 : List Char) (i j : Nat) :
    lcsDP s1 s2 (i + 1) (j + 1) =
      if charEqLower (s1.getD i ' ') (s2.getD j ' ') then lcsDP s1 s2 i j + 1
      else max (lcsDP s1 s2 i (j + 1)) (lcsDP s1 s2 (i + 1) j) := by
  unfold lcsDP
  have h : i + 1 + (j + 1) = (i + j + 1) + 1 := by omega
  rw [h]
  simp only [lcsDPF]
  rw [lcsDPF_fuel (i + j + 1) s1 s2 (i + j) i j (by omega) (by omega),
    lcsDPF_fuel (i + j + 1) s1 s2 (i + (j + 1)) i (j + 1) (by omega) (by omega),
    lcsDPF_fuel (i + j + 1) s1 s2 (i + 1 + j) (i + 1) j (by omega) (by omega)]

theorem lcsDP_le_min_aux (s1 s2 : List Char) :
    ∀ (n i j : Nat), i + j ≤ n → lcsDP s1 s2 i j ≤ min i j := by
  intro n
  induction n with
  | zero =>
    intro i j h
    have hi : i = 0 := by omega
    subst hi
    rw [lcsDP_zero_left]
    exact Nat.zero_le _
  | succ n ih =>
    intro i j h
    cases i with
    | zero => rw [lcsDP_zero_left]; exact Nat.zero_le _
    | succ i =>
      cases j with
      | zero => rw [lcsDP_zero_right]; exact Nat.zero_le _
      | succ j =>
        rw [lcsDP_succ_succ]
        by_cases hc : charEqLower (s1.getD i ' ') (s2.getD j ' ') = true
        · rw [if_pos hc]
          have h1 := ih i j (by omega)
          omega
        · rw [if_neg hc]
          have h1 := ih i (j + 1) (by omega)
          have h2 := ih (i + 1) j (by omega)
          omega

theorem lcsDP_le_min (s1 s2 : List Char) (i j : Nat) :
    lcsDP s1 s2 i j ≤ min i j :=
  lcsDP_le_min_aux s1 s2 (i + j) i j le_rfl

theorem charEqLower_refl (c : Char) : charEqLower c c = true := by
  simp [charEqLower]

theorem lcsDP_self_diag (s : List Char) : ∀ i : Nat, lcsDP s s i i = i := by
  intro i
  induction i with
  | zero => rw [lcsDP_zero_left]
  | succ i ih =>
    rw [lcsDP_succ_succ, if_pos (charEqLower_refl _), ih]

/-- Joint one-step monotonicity and Lipschitz bounds for the LCS table, by
strong induction on `i + j`. -/
theorem lcsDP_mono_lip (s1 s2 : List Char) :
    ∀ (n i j : Nat), i + j ≤ n →
      (lcsDP s1 s2 i j ≤ lcsDP s1 s2 (i + 1) j ∧
       lcsDP s1 s2 i j ≤ lcsDP s1 s2 i (j + 1) ∧
       lcsDP s1 s2 (i + 1) j ≤ lcsDP s1 s2 i j + 1 ∧
       lcsDP s1 s2 i (j + 1) ≤ lcsDP s1 s2 i j + 1) := by
  intro n
  induction n with
  | zero =>
    intro i j h
    have hi : i = 0 := by omega
    have hj : j = 0 := by omega
    subst hi; subst hj
    rw [lcsDP_zero_left, lcsDP_zero_left, lcsDP_zero_right]
    refine ⟨Nat.zero_le _, Nat.zero_le _, ?_, ?_⟩
    · have := lcsDP_le_min s1 s2 1 0
      omega
    · have := lcsDP_le_min s1 s2 0 1
      omega
  | succ n ih =>
    intro i j h
    cases i with
    | zero =>
      rw [lcsDP_zero_left, lcsDP_zero_left]
      refine ⟨Nat.zero_le _, Nat.zero_le _, ?_, Nat.zero_le _⟩
      have := lcsDP_le_min s1 s2 (0 + 1) j
      omega
    | succ a =>
      cases j with
      | zero =>
        rw [lcsDP_zero_right, lcsDP_zero_right]
        refine ⟨Nat.zero_le _, Nat.zero_le _, ?_, ?_⟩
        · have := lcsDP_le_min s1 s2 (a + 1 + 1) 0
          omega
        · have := lcsDP_le_min s1 s2 (a + 1) (0 + 1)
          omega
      | succ b =>
        have Aab := (ih a b (by omega)).1
        have Bab := (ih a b (by omega)).2.1
        have Cab := (ih a b (by omega)).2.2.1
        have Dab := (ih a b (by omega)).2.2.2
        have Aab1 := (ih a (b + 1) (by omega)).1
        have Bab1 := (ih a (b + 1) (by omega)).2.1
        have Dab1 := (ih a (b + 1) (by omega)).2.2.2
        have Aa1b := (ih (a + 1) b (by omega)).1
        have Ba1b := (ih (a + 1) b (by omega)).2.1
        have Ca1b := (ih (a + 1) b (by omega)).2.2.1
        have Ba1b' := (ih (a + 1) b (by omega)).2.1
        refine ⟨?_, ?_, ?_, ?_⟩
        · -- A: dp (a+1) (b+1) ≤ dp (a+2) (b+1)
          rw [lcsDP_succ_succ s1 s2 a b, lcsDP_succ_succ s1 s2 (a + 1) b]
          by_cases e2 : charEqLower (s1.getD (a + 1) ' ') (s2.getD b ' ') = true
          · rw [if_pos e2]
            by_cases e1 : charEqLower (s1.getD a ' ') (s2.getD b ' ') = true
            · rw [if_pos e1]; omega
            · rw [if_neg e1]
              have h1 : lcsDP s1 s2 a (b + 1) ≤ lcsDP s1 s2 (a + 1) b + 1 := by omega
              exact max_le h1 (by omega)
          · rw [if_neg e2]
            by_cases e1 : charEqLower (s1.getD a ' ') (s2.getD b ' ') = true
            · rw [if_pos e1]
              have h1 : lcsDP s1 s2 a b + 1 ≤ lcsDP s1 s2 (a + 1) (b + 1) := by
                rw [lcsDP_succ_succ s1 s2 a b, if_pos e1]
              exact le_trans h1 (le_max_left _ _)
            · rw [if_neg e1]
              exact max_le_max Aab1 Aa1b
        · -- B: dp (a+1) (b+1) ≤ dp (a+1) (b+2)
          rw [lcsDP_succ_succ s1 s2 a b, lcsDP_succ_succ s1 s2 a (b + 1)]
          by_cases e3 : charEqLower (s1.getD a ' ') (s2.getD (b + 1) ' ') = true
          · rw [if_pos e3]
            by_cases e1 : charEqLower (s1.getD a ' ') (s2.getD b ' ') = true
            · rw [if_pos e1]; omega
            · rw [if_neg e1]
              refine max_le (by omega) ?_
              omega
          · rw [if_neg e3]
            by_cases e1 : charEqLower (s1.getD a ' ') (s2.getD b ' ') = true
            · rw [if_pos e1]
              have h1 : lcsDP s1 s2 a b + 1 ≤ lcsDP s1 s2 (a + 1) (b + 1) := by
                rw [lcsDP_succ_succ s1 s2 a b, if_pos e1]
              exact le_trans h1 (le_max_right _ _)
            · rw [if_neg e1]
              exact max_le_max Bab1 Ba1b
        · -- C: dp (a+2) (b+1) ≤ dp (a+1) (b+1) + 1
          rw [lcsDP_succ_succ s1 s2 (a + 1) b]
          by_cases e2 : charEqLower (s1.getD (a + 1) ' ') (s2.getD b ' ') = true
          · rw [if_pos e2]
            omega
          · rw [if_neg e2]
            refine max_le (by omega) ?_
            omega
        · -- D: dp (a+1) (b+2) ≤ dp (a+1) (b+1) + 1
          rw [lcsDP_succ_succ s1 s2 a (b + 1)]
          by_cases e3 : charEqLower (s1.getD a ' ') (s2.getD (b + 1) ' ') = true
          · rw [if_pos e3]
            omega
          · rw [if_neg e3]
            refine max_le (by omega) ?_
            omega

theorem lcsDP_mono_left (s1 s2 : List Char) (j : Nat) :
    ∀ i i' : Nat, i ≤ i' → lcsDP s1 s2 i j ≤ lcsDP s1 s2 i' j := by
  intro i i' h
  induction i', h using Nat.le_induction with
  | base => exact le_rfl
  | succ i' hii ihm =>
    exact le_trans ihm ((lcsDP_mono_lip s1 s2 (i' + j) i' j le_rfl).1)

theorem lcsDP_mono_right (s1 s2 : List Char) (i : Nat) :
    ∀ j j' : Nat, j ≤ j' → lcsDP s1 s2 i j ≤ lcsDP s1 s2 i j' := by
  intro j j' h
  induction j', h using Nat.le_induction with
  | base => exact le_rfl
  | succ j' hjj ihm =>
    exact le_trans ihm ((lcsDP_mono_lip s1 s2 (i + j') i j' le_rfl).2.1)

theorem lcsDP_mono (s1 s2 : List Char) {i j m n : Nat} (h1 : i ≤ m) (h2 : j ≤ n) :
    lcsDP s1 s2 i j ≤ lcsDP s1 s2 m n :=
  le_trans (lcsDP_mono_left s1 s2 j i m h1) (lcsDP_mono_right s1 s2 m j n h2)

theorem lcssDP_le_lcsDP (s1 s2 : List Char) :
    ∀ (n i j : Nat), i + j ≤ n → lcssDP s1 s2 i j ≤ lcsDP s1 s2 i j := by
  intro n
  induction n with
  | zero =>
    intro i j h
    have hi : i = 0 := by omega
    subst hi
    simp only [lcssDP]
    exact Nat.zero_le _
  | succ n ih =>
    intro i j h
    cases i with
    | zero => simp only [lcssDP]; exact Nat.zero_le _
    | succ i =>
      cases j with
      | zero => simp only [lcssDP]; exact Nat.zero_le _
      | succ j =>
        simp only [lcssDP]
        rw [lcsDP_succ_succ]
        by_cases hc : charEqLower (s1.getD i ' ') (s2.getD j ' ') = true
        · rw [if_pos hc, if_pos hc]
          have := ih i j (by omega)
          omega
        · rw [if_neg hc, if_neg hc]
          exact Nat.zero_le _

theorem lcssDP_self_diag (s : List Char) : ∀ i : Nat, lcssDP s s i i = i := by
  intro i
  induction i with
  | zero => rfl
  | succ i ih =>
    simp only [lcssDP]
    rw [if_pos (charEqLower_refl _), ih]

theorem foldl_max_le {β : Type} (f : β → Nat) (K : Nat) :
    ∀ (l : List β) (a : Nat), a ≤ K → (∀ x ∈ l, f x ≤ K) →
      l.foldl (fun acc x => max acc (f x)) a ≤ K := by
  intro l
  induction l with
  | nil => intro a ha _; simpa using ha
  | cons hd tl ih =>
    intro a ha hx
    simp only [List.foldl_cons]
    exact ih _ (max_le ha (hx hd (List.mem_cons_self _ _)))
      (fun x hmem => hx x (List.mem_cons_of_mem _ hmem))

theorem le_foldl_max {β : Type} (f : β → Nat) :
    ∀ (l : List β) (a : Nat), a ≤ l.foldl (fun acc x => max acc (f x)) a := by
  intro l
  induction l with
  | nil => intro a; simp
  | cons hd tl ih =>
    intro a
    simp only [List.foldl_cons]
    exact le_trans (le_max_left a (f hd)) (ih _)

theorem foldl_max_ge {β : Type} (f : β → Nat) :
    ∀ (l : List β) (a : Nat) (x : β), x ∈ l →
      f x ≤ l.foldl (fun acc x => max acc (f x)) a := by
  intro l
  induction l with
  | nil => intro a x hx; simp at hx
  | cons hd tl ih =>
    intro a x hx
    simp only [List.foldl_cons]
    rcases List.mem_cons.mp hx with rfl | hx2
    · exact le_trans (le_max_right a (f x)) (le_foldl_max f tl _)
    · exact ih _ x hx2

theorem lcssFold_le (u v : List Char) (K : Nat) :
    ∀ (l : List Nat) (a : Nat), a ≤ K →
      (∀ i ∈ l, ∀ j ∈ List.range v.length, lcssDP u v (i + 1) (j + 1) ≤ K) →
      l.foldl (fun acc i => (List.range v.length).foldl
        (fun acc2 j => max acc2 (lcssDP u v (i + 1) (j + 1))) acc) a ≤ K := by
  intro l
  induction l with
  | nil => intro a ha _; simpa using ha
  | cons hd tl ih =>
    intro a ha hcell
    simp only [List.foldl_cons]
    refine ih _ ?_ (fun i hi j hj => hcell i (List.mem_cons_of_mem _ hi) j hj)
    exact foldl_max_le _ K _ a ha
      (fun j hj => hcell hd (List.mem_cons_self _ _) j hj)

theorem lcssFold_init_le (u v : List Char) :
    ∀ (l : List Nat) (a : Nat),
      a ≤ l.foldl (fun acc i => (List.range v.length).foldl
        (fun acc2 j => max acc2 (lcssDP u v (i + 1) (j + 1))) acc) a := by
  intro l
  induction l with
  | nil => intro a; simp
  | cons hd tl ih =>
    intro a
    simp only [List.foldl_cons]
    exact le_trans (le_foldl_max _ _ _) (ih _)

theorem lcssFold_ge (u v : List Char) :
    ∀ (l : List Nat) (a i j : Nat), i ∈ l → j ∈ List.range v.length →
      lcssDP u v (i + 1) (j + 1) ≤
        l.foldl (fun acc i => (List.range v.length).foldl
          (fun acc2 j => max acc2 (lcssDP u v (i + 1) (j + 1))) acc) a := by
  intro l
  induction l with
  | nil => intro a i j hi _; simp at hi
  | cons hd tl ih =>
    intro a i j hi hj
    simp only [List.foldl_cons]
    rcases List.mem_cons.mp hi with heq | hi2
    · rw [heq]
      exact le_trans
        (foldl_max_ge (fun j => lcssDP u v (hd + 1) (j + 1)) (List.range v.length) a j hj)
        (lcssFold_init_le u v tl _)
    · exact ih _ i j hi2 hj

theorem lcss_le_lcs (a b : String) : lcss_length a b ≤ lcs_length a b := by
  unfold lcss_length lcs_length
  refine lcssFold_le a.data b.data _ _ 0 (Nat.zero_le _) ?_
  intro i hi j hj
  rw [List.mem_range] at hi hj
  exact le_trans (lcssDP_le_lcsDP a.data b.data (i + 1 + (j + 1)) (i + 1) (j + 1) le_rfl)
    (lcsDP_mono a.data b.data (by omega) (by omega))

theorem lcs_le_min_len (a b : String) : lcs_length a b ≤ min a.length b.length :=
  lcsDP_le_min a.data b.data a.data.length b.data.length

theorem lcs_self_eq (a : String) : lcs_length a a = a.length :=
  lcsDP_self_diag a.data a.data.length

theorem lcss_self_eq (a : String) : lcss_length a a = a.length := by
  refine le_antisymm ?_ ?_
  · unfold lcss_length
    refine lcssFold_le a.data a.data _ _ 0 (Nat.zero_le _) ?_
    intro i hi j hj
    rw [List.mem_range] at hi hj
    have h1 := lcssDP_le_lcsDP a.data a.data (i + 1 + (j + 1)) (i + 1) (j + 1) le_rfl
    have h2 := lcsDP_le_min a.data a.data (i + 1) (j + 1)
    have h3 : min (i + 1) (j + 1) ≤ a.data.length := by omega
    exact le_trans h1 (le_trans h2 h3)
  · cases hm : a.data.length with
    | zero =>
      have ha : a.length = 0 := hm
      rw [ha]
      exact Nat.zero_le _
    | succ k =>
      have hk : k ∈ List.range a.data.length := List.mem_range.mpr (by omega)
      have hge := lcssFold_ge a.data a.data (List.range a.data.length) 0 k k hk hk
      rw [lcssDP_self_diag a.data (k + 1)] at hge
      have ha : a.length = k + 1 := hm
      rw [ha]
      exact hge

/-- C8: the similarity scores satisfy
`0 ≤ LCSS(a,b) ≤ LCS(a,b) ≤ min(len a, len b)` for all strings, and both
scores of a string against itself equal its length. -/
theorem c8_similarity_bounds (a b : String) :
    0 ≤ lcss_length a b ∧
    lcss_length a b ≤ lcs_length a b ∧
    lcs_length a b ≤ min a.length b.length ∧
    lcs_length a a = a.length ∧
    lcss_length a a = a.length :=
  ⟨Nat.zero_le _, lcss_le_lcs a b, lcs_le_min_len a b, lcs_self_eq a, lcss_self_eq a⟩

/-! ## C7: venue-normalizer idempotence fails -/

/-- C7: `normalize_venue` is not idempotent.  On `"A 1999 2000 B"` the
mid-string year substitution consumes the whitespace after `1999`, so the
adjacent `2000` no longer has a leading-space match and survives the first
pass; a second pass then strips it, violating
`normalize(normalize(x)) == normalize(x)` demanded by the specification
(the same behaviour was reproduced on the Python source). -/
theorem c7_normalize_venue_not_idempotent :
    normalize_venue "A 1999 2000 B" = "A 2000 B" ∧
    normalize_venue (normalize_venue "A 1999 2000 B") = "A B" ∧
    normalize_venue (normalize_venue "A 1999 2000 B") ≠
      normalize_venue "A 1999 2000 B" := by decide
